import Mathlib

/-!
Verification of the Artifact Rating & Lineage Engine of the
ECE461_Team18_Phase2 model registry.

The repository ships the TypeScript frontend (`ApiClient`, the generated
OpenAPI types) together with documentation of the Python backend
(README, GET_BY_NAME_REGEX_IMPLEMENTATION.md, IMPLEMENTATION_SUMMARY.md).
The backend modules themselves (submetrics.py, metric_calculator.py, the
lambda handlers) are not part of the shipped sources, so the engine is
modelled here from the specification and from the repository's own
documentation, while the client-side state machine and the data model are
translated directly from the TypeScript sources.

Numeric scores are rationals; latencies are naturals (milliseconds).
-/

namespace Registry

/-- Modelled from the spec (section 7): the closed set of error kinds. -/
inductive ErrorKind where
  | InvalidURL
  | UnsupportedProvider
  | ExternalUnavailable
  | ExternalNotFound
  | ExternalRateLimited
  | Timeout
  | InvalidPattern
  | SandboxExecutionFailure
deriving DecidableEq, Repr

/-- Modelled from the spec (section 3): one result per evaluator per run. -/
structure MetricResult where
  score : ℚ
  latencyMs : ℕ
  error : Option ErrorKind
deriving DecidableEq, Repr

/-- Modelled from the spec (section 4.3): the eleven metric evaluators. -/
inductive MetricKey where
  | size
  | license
  | rampUp
  | busFactor
  | datasetQuality
  | codeQuality
  | availability
  | performance
  | reproducibility
  | reviewedness
  | treeScore
deriving DecidableEq, Repr

/-- Translated from src/unnamed/part_004 (types.ts): the four per-platform
size scores of a rating. -/
structure SizeScore where
  raspberry_pi : ℚ
  jetson_nano : ℚ
  desktop_pc : ℚ
  aws_server : ℚ
deriving DecidableEq, Repr

/-- Translated from src/unnamed/part_004 (types.ts): the ModelRating record
returned by the rate endpoint, eleven metrics plus net score and latencies. -/
structure ModelRating where
  name : String
  category : String
  net_score : ℚ
  net_score_latency : ℕ
  ramp_up_time : ℚ
  ramp_up_time_latency : ℕ
  bus_factor : ℚ
  bus_factor_latency : ℕ
  performance_claims : ℚ
  performance_claims_latency : ℕ
  license : ℚ
  license_latency : ℕ
  dataset_and_code_score : ℚ
  dataset_and_code_score_latency : ℕ
  dataset_quality : ℚ
  dataset_quality_latency : ℕ
  code_quality : ℚ
  code_quality_latency : ℕ
  reproducibility : ℚ
  reproducibility_latency : ℕ
  reviewedness : ℚ
  reviewedness_latency : ℕ
  tree_score : ℚ
  tree_score_latency : ℕ
  size_score : SizeScore
  size_score_latency : ℕ
deriving DecidableEq, Repr

/-- Clamp a rational into the unit interval, as the size metric does. -/
def clamp01 (x : ℚ) : ℚ := max 0 (min 1 x)

/-- Booleans as rational indicator values. -/
def b2q (b : Bool) : ℚ := if b then 1 else 0

/-- Modelled from the spec (section 4.3): the licence status seen by the
licence evaluator. -/
inductive LicenseStatus where
  | matchedPermissive
  | knownIncompatible
  | unknown
deriving DecidableEq, Repr

/-- Modelled from the spec (sections 4.2 and 4.3): the immutable metadata
snapshot an evaluation run works on.  Each field is the input of exactly
one evaluator. -/
structure MetadataBundle where
  sizeMB : ℚ
  licenseStatus : LicenseStatus
  docEmpty : Bool
  hasUsageExamples : Bool
  hasInstallSteps : Bool
  hasDescribedInputsOutputs : Bool
  topContributorCommits : ℕ
  totalCommits : ℕ
  hasLicensingTerm : Bool
  hasSplitTerm : Bool
  hasProvenanceTerm : Bool
  codeExampleCount : ℕ
  datasetPresent : Bool
  codePresent : Bool
  performanceService : Option ℚ
  snippetResults : List Bool
  reviewResults : List Bool
deriving Repr

/-- Modelled from the spec (section 4.3, metric 1): each platform score is a
monotonically decreasing function of size against a platform capacity
threshold, clamped to the unit interval.  Capacity thresholds are fixed
configuration (MB). -/
def sizeEval (b : MetadataBundle) : SizeScore :=
  { raspberry_pi := clamp01 (1 - b.sizeMB / 1024)
  , jetson_nano := clamp01 (1 - b.sizeMB / 4096)
  , desktop_pc := clamp01 (1 - b.sizeMB / 16384)
  , aws_server := clamp01 (1 - b.sizeMB / 65536) }

/-- Average of the four platform scores; this is the size metric's single
contribution to the net score. -/
def sizeAvg (s : SizeScore) : ℚ :=
  (s.raspberry_pi + s.jetson_nano + s.desktop_pc + s.aws_server) / 4

/-- Modelled from the spec (section 4.3, metric 2): exact permissive match
gives 1, known-incompatible 0, unknown the configured baseline 0.5. -/
def licenseEval (b : MetadataBundle) : ℚ :=
  match b.licenseStatus with
  | .matchedPermissive => 1
  | .knownIncompatible => 0
  | .unknown => 1/2

/-- Modelled from the spec (section 4.3, metric 3): documentation
completeness over three structural features, baseline 0.25 when the
documentation is empty. -/
def rampUpEval (b : MetadataBundle) : ℚ :=
  if b.docEmpty then 1/4
  else (b2q b.hasUsageExamples + b2q b.hasInstallSteps
        + b2q b.hasDescribedInputsOutputs) / 3

/-- Modelled from the spec (section 4.3, metric 4): one minus the top
contributor's commit share, clipped to the unit interval, 0 without data. -/
def busFactorEval (b : MetadataBundle) : ℚ :=
  if b.totalCommits = 0 then 0
  else clamp01 (1 - (b.topContributorCommits : ℚ) / (b.totalCommits : ℚ))

/-- Modelled from the spec (section 4.3, metric 5): term matching over three
dataset documentation aspects, baseline 0.25 on empty documentation. -/
def datasetQualityEval (b : MetadataBundle) : ℚ :=
  if b.docEmpty then 1/4
  else (b2q b.hasLicensingTerm + b2q b.hasSplitTerm
        + b2q b.hasProvenanceTerm) / 3

/-- Modelled from the spec (section 4.3, metric 6): density of runnable code
examples against a fixed norm, baseline 0.30 on empty documentation. -/
def codeQualityEval (b : MetadataBundle) : ℚ :=
  if b.docEmpty then 3/10
  else clamp01 ((b.codeExampleCount : ℚ) / 3)

/-- Modelled from the spec (section 4.3, metric 7): half weight for dataset
presence plus half weight for code presence. -/
def availabilityEval (b : MetadataBundle) : ℚ :=
  1/2 * b2q b.datasetPresent + 1/2 * b2q b.codePresent

/-- Modelled from the spec (section 4.3, metric 8): the external reasoning
service's verdict clamped to the unit interval, 0 when unavailable. -/
def performanceEval (b : MetadataBundle) : ℚ :=
  match b.performanceService with
  | none => 0
  | some q => clamp01 q

/-- Modelled from the spec (section 4.3, metric 9): fraction of extracted
snippets that execute without error, 0 when no snippet is found. -/
def reproducibilityEval (b : MetadataBundle) : ℚ :=
  if b.snippetResults.isEmpty then 0
  else ((b.snippetResults.countP id : ℚ)) / (b.snippetResults.length : ℚ)

/-- Modelled from the spec (section 4.3, metric 10): fraction of merged
changes that went through review, 0 when undefined. -/
def reviewednessEval (b : MetadataBundle) : ℚ :=
  if b.reviewResults.isEmpty then 0
  else ((b.reviewResults.countP id : ℚ)) / (b.reviewResults.length : ℚ)

/-- Modelled from the spec (sections 3 and 4.5): the relationship store the
lineage graph builder reads.  An edge runs from the dependency to the
dependent artifact; the store also resolves each artifact's persisted net
score and storage cost. -/
structure LineageStore where
  edges : List (ℕ × ℕ)
  netScoreOf : ℕ → ℚ
  costOf : ℕ → ℚ

/-- Direct dependencies of an artifact: sources of the edges pointing at it. -/
def parentsOf (edges : List (ℕ × ℕ)) (n : ℕ) : List ℕ :=
  (edges.filter (fun e => e.2 == n)).map (fun e => e.1)

/-- All artifact ids mentioned by the store together with the root. -/
def nodesOf (edges : List (ℕ × ℕ)) (root : ℕ) : List ℕ :=
  root :: (edges.map Prod.fst ++ edges.map Prod.snd)

/-- Modelled from the spec (section 4.5): breadth-first traversal with a
visited set.  A dequeued node already in the visited set is skipped (never
re-expanded), and membership is tested again before each enqueue. -/
def bfsAux (edges : List (ℕ × ℕ)) : ℕ → List ℕ → List ℕ → List ℕ
  | 0, _, visited => visited
  | _ + 1, [], visited => visited
  | fuel + 1, n :: queue, visited =>
    if n ∈ visited then bfsAux edges fuel queue visited
    else
      bfsAux edges fuel
        (queue ++ (parentsOf edges n).filter (fun p => decide (p ∉ visited ++ [n])))
        (visited ++ [n])

/-- Number of store nodes not yet visited. -/
def unvisitedCount (edges : List (ℕ × ℕ)) (root : ℕ) (visited : List ℕ) : ℕ :=
  ((nodesOf edges root).filter (fun x => decide (x ∉ visited))).length

/-- Decreasing potential of a traversal state: pending queue entries plus a
budget of one full enqueue round per unvisited store node. -/
def phiMeasure (edges : List (ℕ × ℕ)) (root : ℕ)
    (queue visited : List ℕ) : ℕ :=
  queue.length + unvisitedCount edges root visited * (edges.length + 1)

/-- Fuel that provably suffices for the whole traversal. -/
def fuelBound (edges : List (ℕ × ℕ)) (root : ℕ) : ℕ :=
  phiMeasure edges root [root] []

/-- Modelled from the spec (section 4.5): the visited-node list of the
lineage traversal started at `root`. -/
def lineageVisited (edges : List (ℕ × ℕ)) (root : ℕ) : List ℕ :=
  bfsAux edges (fuelBound edges root) [root] []

/-- Modelled from the spec (sections 4.3 and 4.5): the unique ancestors of an
artifact are the visited nodes of the traversal other than the root. -/
def ancestorsOf (store : LineageStore) (root : ℕ) : List ℕ :=
  (lineageVisited store.edges root).filter (fun x => decide (x ≠ root))

/-- Modelled from the spec (section 4.3, metric 11): mean net score over the
unique ancestors, and the defined value 0 when there are none. -/
def treeScoreEval (store : LineageStore) (root : ℕ) : ℚ :=
  let anc := ancestorsOf store root
  if anc.isEmpty then 0
  else (anc.map store.netScoreOf).sum / (anc.length : ℚ)

/-- Modelled from the spec (section 4.3): the baseline score a metric
degrades to when its input is missing or its call timed out. -/
def baseline : MetricKey → ℚ
  | .size => 0
  | .license => 1/2
  | .rampUp => 1/4
  | .busFactor => 0
  | .datasetQuality => 1/4
  | .codeQuality => 3/10
  | .availability => 0
  | .performance => 0
  | .reproducibility => 0
  | .reviewedness => 0
  | .treeScore => 0

/-- Modelled from the spec (section 4.4): per-metric timeout, a uniform
default overridden for the two inherently slower evaluators. -/
def metricTimeoutMs : MetricKey → ℕ
  | .reproducibility => 30000
  | .performance => 30000
  | _ => 5000

/-- Dispatch table from metric key to evaluator output. -/
def evalScore (store : LineageStore) (root : ℕ) (b : MetadataBundle) :
    MetricKey → ℚ
  | .size => sizeAvg (sizeEval b)
  | .license => licenseEval b
  | .rampUp => rampUpEval b
  | .busFactor => busFactorEval b
  | .datasetQuality => datasetQualityEval b
  | .codeQuality => codeQualityEval b
  | .availability => availabilityEval b
  | .performance => performanceEval b
  | .reproducibility => reproducibilityEval b
  | .reviewedness => reviewednessEval b
  | .treeScore => treeScoreEval store root

/-- Modelled from the spec (section 4.4): the orchestrator's per-metric
outcome.  A timed-out evaluator is synthesized as baseline score with a
Timeout marker and its timeout as latency; a completed one contributes its
own score and measured latency. -/
def metricOutcome (store : LineageStore) (root : ℕ) (b : MetadataBundle)
    (timedOut : MetricKey → Bool) (lat : MetricKey → ℕ) (k : MetricKey) :
    MetricResult :=
  if timedOut k then
    { score := baseline k, latencyMs := metricTimeoutMs k
    , error := some ErrorKind.Timeout }
  else
    { score := evalScore store root b k, latencyMs := lat k, error := none }

/-- The size slot of the assembled rating: the evaluator's four platform
scores, or four baseline zeros after a timeout. -/
def rateSizeScore (b : MetadataBundle) (timedOut : MetricKey → Bool) :
    SizeScore :=
  if timedOut MetricKey.size then ⟨0, 0, 0, 0⟩ else sizeEval b

/-- The ten metric keys whose weighted scores form the net score; the
eleventh, treeScore, is deliberately excluded. -/
def tenMetricKeys : List MetricKey :=
  [ .size, .license, .rampUp, .busFactor, .datasetQuality
  , .codeQuality, .availability, .performance, .reproducibility
  , .reviewedness ]

/-- Modelled from the spec (section 4.3): fixed per-metric weight of the
net score; the configured reference uses the uniform weighting. -/
def netWeight : MetricKey → ℚ := fun _ => 1/10

/-- Net score as the fixed weighted sum over the ten non-ancestor metrics. -/
def netScoreOfSlots (slot : MetricKey → ℚ) : ℚ :=
  (tenMetricKeys.map (fun k => netWeight k * slot k)).sum

/-- Modelled from the spec (section 4.4): `rate` assembles one Rating record
from the eleven metric outcomes; it is total, so a rating is produced for
every input. -/
def rate (store : LineageStore) (root : ℕ) (artifactName category : String)
    (b : MetadataBundle) (timedOut : MetricKey → Bool)
    (lat : MetricKey → ℕ) : ModelRating :=
  let out := metricOutcome store root b timedOut lat
  { name := artifactName
  , category := category
  , net_score := netScoreOfSlots (fun k => (out k).score)
  , net_score_latency :=
      (tenMetricKeys.map (fun k => (out k).latencyMs)).foldr Nat.max 0
  , ramp_up_time := (out .rampUp).score
  , ramp_up_time_latency := (out .rampUp).latencyMs
  , bus_factor := (out .busFactor).score
  , bus_factor_latency := (out .busFactor).latencyMs
  , performance_claims := (out .performance).score
  , performance_claims_latency := (out .performance).latencyMs
  , license := (out .license).score
  , license_latency := (out .license).latencyMs
  , dataset_and_code_score := (out .availability).score
  , dataset_and_code_score_latency := (out .availability).latencyMs
  , dataset_quality := (out .datasetQuality).score
  , dataset_quality_latency := (out .datasetQuality).latencyMs
  , code_quality := (out .codeQuality).score
  , code_quality_latency := (out .codeQuality).latencyMs
  , reproducibility := (out .reproducibility).score
  , reproducibility_latency := (out .reproducibility).latencyMs
  , reviewedness := (out .reviewedness).score
  , reviewedness_latency := (out .reviewedness).latencyMs
  , tree_score := (out .treeScore).score
  , tree_score_latency := (out .treeScore).latencyMs
  , size_score := rateSizeScore b timedOut
  , size_score_latency := (out .size).latencyMs }

/-- Translated from src/unnamed/part_004 (types.ts): per-artifact cost
details returned by the cost endpoint. -/
structure ArtifactCostDetails where
  standalone_cost : Option ℚ
  total_cost : ℚ
deriving DecidableEq, Repr

/-- Modelled from the spec (section 4.6): standalone cost is the artifact's
own footprint; with dependencies included, the total adds the cost of every
unique ancestor of the lineage subgraph exactly once. -/
def computeCost (store : LineageStore) (root : ℕ)
    (includeDependencies : Bool) : ArtifactCostDetails :=
  if includeDependencies then
    { standalone_cost := some (store.costOf root)
    , total_cost :=
        store.costOf root + ((ancestorsOf store root).map store.costOf).sum }
  else
    { standalone_cost := some (store.costOf root)
    , total_cost := store.costOf root }

/-- Abstract syntax of the regular-expression fragment accepted by the
pattern validator (literals, dot, character classes, grouping, alternation
and repetition). -/
inductive RegexAst where
  | emptyset
  | epsilon
  | anyChar
  | lit (c : Char)
  | cls (neg : Bool) (cs : List Char)
  | cat (r s : RegexAst)
  | alt (r s : RegexAst)
  | star (r : RegexAst)
deriving DecidableEq, Repr

/-- Whether the expression accepts the empty word. -/
def nullable : RegexAst → Bool
  | .emptyset => false
  | .epsilon => true
  | .anyChar => false
  | .lit _ => false
  | .cls _ _ => false
  | .cat r s => nullable r && nullable s
  | .alt r s => nullable r || nullable s
  | .star _ => true

/-- Brzozowski derivative of the expression by one character. -/
def deriv : RegexAst → Char → RegexAst
  | .emptyset, _ => .emptyset
  | .epsilon, _ => .emptyset
  | .anyChar, _ => .epsilon
  | .lit c, a => if a = c then .epsilon else .emptyset
  | .cls neg cs, a => if (cs.contains a).xor neg then .epsilon else .emptyset
  | .cat r s, a =>
    if nullable r then .alt (.cat (deriv r a) s) (deriv s a)
    else .cat (deriv r a) s
  | .alt r s, a => .alt (deriv r a) (deriv s a)
  | .star r, a => .cat (deriv r a) (.star r)

/-- Whole-word match of an expression against a character list. -/
def rmatch (r : RegexAst) (s : List Char) : Bool :=
  nullable (s.foldl deriv r)

/-- Unanchored match, as the backend's search-style matching: the pattern
may occur anywhere in the subject. -/
def searchMatch (r : RegexAst) (s : List Char) : Bool :=
  rmatch (.cat (.star .anyChar) (.cat r (.star .anyChar))) s

/-- Characters of a string folded to lower case; case-insensitive matching
compares lowered pattern literals with lowered subjects. -/
def lowerChars (s : String) : List Char := s.data.map Char.toLower

/-- Scan the body of a character class up to the closing bracket; reaching
the end of the pattern first is the parser's unterminated-set complaint,
reported at the opening bracket's position. -/
def clsChars (start : ℕ) :
    List Char → ℕ → List Char → Except String (List Char × List Char × ℕ)
  | [], _, _ =>
    .error ("unterminated character set at position " ++ toString start)
  | ']' :: rest, pos, acc => .ok (acc, rest, pos + 1)
  | c :: rest, pos, acc => clsChars start rest (pos + 1) (acc ++ [c])

/-- Apply a single postfix repetition operator to a parsed atom. -/
def applyPostfix (r : RegexAst) :
    List Char → ℕ → RegexAst × List Char × ℕ
  | '*' :: rest, pos => (.star r, rest, pos + 1)
  | '+' :: rest, pos => (.cat r (.star r), rest, pos + 1)
  | '?' :: rest, pos => (.alt r .epsilon, rest, pos + 1)
  | cs, pos => (r, cs, pos)

mutual

/-- Alternation level of the pattern grammar.  The fuel argument bounds the
pattern's structural complexity, mirroring the reference behavior of
rejecting overly complex patterns. -/
def parseAlt : ℕ → List Char → ℕ →
    Except String (RegexAst × List Char × ℕ)
  | 0, _, pos => .error ("pattern too complex at position " ++ toString pos)
  | fuel + 1, cs, pos =>
    match parseSeq fuel cs pos with
    | .error msg => .error msg
    | .ok (r, rest, p) =>
      match rest with
      | '|' :: rest2 =>
        match parseAlt fuel rest2 (p + 1) with
        | .error msg => .error msg
        | .ok (r2, rest3, p3) => .ok (.alt r r2, rest3, p3)
      | _ => .ok (r, rest, p)

/-- Concatenation level of the pattern grammar. -/
def parseSeq : ℕ → List Char → ℕ →
    Except String (RegexAst × List Char × ℕ)
  | 0, _, pos => .error ("pattern too complex at position " ++ toString pos)
  | fuel + 1, cs, pos =>
    match cs with
    | [] => .ok (.epsilon, [], pos)
    | ')' :: _ => .ok (.epsilon, cs, pos)
    | '|' :: _ => .ok (.epsilon, cs, pos)
    | _ =>
      match parseAtom fuel cs pos with
      | .error msg => .error msg
      | .ok (r, rest, p) =>
        match applyPostfix r rest p with
        | (r2, rest2, p2) =>
          match parseSeq fuel rest2 p2 with
          | .error msg => .error msg
          | .ok (r3, rest3, p3) => .ok (.cat r2 r3, rest3, p3)

/-- Atom level of the pattern grammar, with the parser's specific
complaints for malformed input. -/
def parseAtom : ℕ → List Char → ℕ →
    Except String (RegexAst × List Char × ℕ)
  | 0, _, pos => .error ("pattern too complex at position " ++ toString pos)
  | fuel + 1, cs, pos =>
    match cs with
    | [] => .error ("unexpected end of pattern at position " ++ toString pos)
    | '(' :: rest =>
      match parseAlt fuel rest (pos + 1) with
      | .error msg => .error msg
      | .ok (r, ')' :: rest2, p2) => .ok (r, rest2, p2 + 1)
      | .ok (_, _, _) =>
        .error ("missing ), unterminated subpattern at position "
          ++ toString pos)
    | '[' :: '^' :: rest =>
      match clsChars pos rest (pos + 2) [] with
      | .error msg => .error msg
      | .ok (chars, rest2, p2) => .ok (.cls true chars, rest2, p2)
    | '[' :: rest =>
      match clsChars pos rest (pos + 1) [] with
      | .error msg => .error msg
      | .ok (chars, rest2, p2) => .ok (.cls false chars, rest2, p2)
    | '.' :: rest => .ok (.anyChar, rest, pos + 1)
    | '*' :: _ => .error ("nothing to repeat at position " ++ toString pos)
    | '+' :: _ => .error ("nothing to repeat at position " ++ toString pos)
    | '?' :: _ => .error ("nothing to repeat at position " ++ toString pos)
    | '\\' :: c :: rest => .ok (.lit c, rest, pos + 2)
    | '\\' :: [] =>
      .error ("bad escape (end of pattern) at position " ++ toString pos)
    | c :: rest => .ok (.lit c, rest, pos + 1)

end

/-- Modelled from the spec (section 4.6) and the repository documentation
(GET_BY_NAME_REGEX_IMPLEMENTATION.md): validate the caller-supplied pattern
before execution, surfacing the parser's specific complaint on failure.
Pattern literals are lowered for case-insensitive matching. -/
def parseRegex (pattern : String) : Except String RegexAst :=
  let cs := lowerChars pattern
  match parseAlt (2 * cs.length + 2) cs 0 with
  | .error msg => .error msg
  | .ok (r, [], _) => .ok r
  | .ok (_, _ :: _, p) =>
    .error ("unbalanced parenthesis at position " ++ toString p)

/-- Translated from src/unnamed/part_004 (types.ts): the artifact type
enumeration. -/
inductive ArtifactType where
  | model
  | dataset
  | code
deriving DecidableEq, Repr

/-- Translated from src/unnamed/part_004 (types.ts): the metadata record
returned by the search endpoints. -/
structure ArtifactMetadata where
  name : String
  id : String
  type : ArtifactType
deriving DecidableEq, Repr

/-- A stored artifact row as the search handlers see it: its metadata plus
the free-text README captured in the metadata JSONB column. -/
structure StoredArtifact where
  meta : ArtifactMetadata
  readme : String
deriving DecidableEq, Repr

/-- Translated from src/unnamed/part_004 (types.ts): the normalized error
the client raises for a non-ok response. -/
structure ApiError where
  message : String
  status : ℕ
deriving DecidableEq, Repr

/-- Modelled from the spec (section 4.6): exact, case-preserving match over
stored artifact names, returning every record sharing the name. -/
def searchByName (name : String) (db : List StoredArtifact) :
    List ArtifactMetadata :=
  (db.filter (fun a => a.meta.name == name)).map (fun a => a.meta)

/-- An error response body as the client's JSON parse sees it: the backend
writes an "error" key; a "message" key may or may not be present. -/
structure ErrorBody where
  error : Option String
  message : Option String
deriving DecidableEq, Repr

/-- HTTP status text of the response statuses the modelled handlers emit. -/
def statusText : ℕ → String
  | 400 => "Bad Request"
  | 403 => "Forbidden"
  | 404 => "Not Found"
  | 500 => "Internal Server Error"
  | _ => ""

/-- Translated from src/unnamed/part_004 (ApiClient.request error branch):
the ApiError message defaults to "HTTP <status>: <statusText>" and is
replaced by the parsed body's "message" field only when that field is
present and truthy; the "error" key the backend writes is never read. -/
def clientErrorMessage (status : ℕ) (body : ErrorBody) : String :=
  match body.message with
  | some m =>
    if m = "" then "HTTP " ++ toString status ++ ": " ++ statusText status
    else m
  | none => "HTTP " ++ toString status ++ ": " ++ statusText status

/-- Modelled from the repository documentation
(GET_BY_NAME_REGEX_IMPLEMENTATION.md): the byName handler answers 404 with
body {"error": "No such artifact"} — a body without a "message" key — when
no record matches, and 200 with the matching records otherwise. -/
def getByNameHandler (name : String) (db : List StoredArtifact) :
    Except (ℕ × ErrorBody) (List ArtifactMetadata) :=
  let res := searchByName name db
  if res.isEmpty then
    .error (404, { error := some "No such artifact", message := none })
  else .ok res

/-- Translated from src/unnamed/part_004 (api.ts request plus
getArtifactsByName): a non-ok response makes the client raise an ApiError
whose message the request error branch computes from the parsed body and
the status line. -/
def clientGetArtifactsByName (name : String) (db : List StoredArtifact) :
    Except ApiError (List ArtifactMetadata) :=
  match getByNameHandler name db with
  | .error (st, body) =>
    .error { message := clientErrorMessage st body, status := st }
  | .ok v => .ok v

/-- Modelled from the spec (section 4.6) and the repository documentation:
regex search validates the pattern first, failing with InvalidPattern and
the parser's complaint; a valid pattern is matched case-insensitively
against each artifact's name and README text. -/
def searchByRegex (pattern : String) (db : List StoredArtifact) :
    Except (ErrorKind × String) (List ArtifactMetadata) :=
  match parseRegex pattern with
  | .error msg =>
    .error (ErrorKind.InvalidPattern, "Invalid regex pattern: " ++ msg)
  | .ok r =>
    .ok ((db.filter (fun a =>
      searchMatch r (lowerChars a.meta.name)
        || searchMatch r (lowerChars a.readme))).map (fun a => a.meta))

/-- Translated from src/unnamed/part_004 (api.ts): the client's state is
its stored token, null when absent. -/
structure ClientState where
  token : Option String
deriving DecidableEq, Repr

/-- Translated from src/unnamed/part_004 (ApiClient.setToken). -/
def setToken (_st : ClientState) (tok : Option String) : ClientState :=
  { token := tok }

/-- Translated from src/unnamed/part_004 (ApiClient.getToken). -/
def getToken (st : ClientState) : Option String := st.token

/-- Translated from src/unnamed/part_004 (ApiClient.request): the base
header list, with X-Authorization attached exactly when `this.token` is
truthy, i.e. non-null and non-empty. -/
def requestHeaders (st : ClientState) : List (String × String) :=
  [("Content-Type", "application/json")] ++
    (match st.token with
     | some t => if t = "" then [] else [("X-Authorization", t)]
     | none => [])

/-- Translated from src/unnamed/part_004 (ApiClient.authenticate): on
success the returned token is stored via setToken and returned. -/
def authenticate (st : ClientState) (returned : String) :
    ClientState × String :=
  (setToken st (some returned), returned)

/-- Translated from src/unnamed/part_004 (ApiClient.logout). -/
def logout (st : ClientState) : ClientState := setToken st none

/-- A store with a diamond-shaped lineage: artifact 10 feeds root 1 both
directly and through artifact 20, so 10 is reachable along two paths. -/
def diamondStore : LineageStore :=
  { edges := [(10, 1), (20, 1), (10, 20)]
  , netScoreOf := fun n => if n = 10 then 2/5 else if n = 20 then 4/5 else 0
  , costOf := fun n => if n = 10 then 5 else if n = 20 then 7 else 3 }

/-- A store whose edge set is a directed cycle among three artifacts. -/
def cycleEdges : List (ℕ × ℕ) := [(1, 2), (2, 3), (3, 1)]

/-- Sample metadata snapshot with every input absent. -/
def emptyBundle : MetadataBundle :=
  { sizeMB := 0, licenseStatus := .unknown, docEmpty := true
  , hasUsageExamples := false, hasInstallSteps := false
  , hasDescribedInputsOutputs := false, topContributorCommits := 0
  , totalCommits := 0, hasLicensingTerm := false, hasSplitTerm := false
  , hasProvenanceTerm := false, codeExampleCount := 0
  , datasetPresent := false, codePresent := false
  , performanceService := none, snippetResults := [], reviewResults := [] }

/-- Sample artifact rows exercised by the search properties. -/
def bertDb : List StoredArtifact :=
  [ { meta := { name := "bert-base-uncased", id := "12345", type := .model }
    , readme := "Pretrained masked language model" }
  , { meta := { name := "distilbert", id := "23456", type := .model }
    , readme := "A smaller distilled variant" }
  , { meta := { name := "whisper-small", id := "34567", type := .model }
    , readme := "Speech recognition checkpoint" }
  , { meta := { name := "ALBERT", id := "45678", type := .model }
    , readme := "A lite variant" } ]

/-- Two stored rows sharing one name with distinct ids. -/
def twoBertDb : List StoredArtifact :=
  [ { meta := { name := "bert", id := "1", type := .model }, readme := "" }
  , { meta := { name := "bert", id := "2", type := .dataset }, readme := "" } ]

/-- Projection of a rating's eleven metric slots by metric key; the size
slot contributes the average of its four platform scores. -/
def ratingSlotScore (r : ModelRating) : MetricKey → ℚ
  | .size => sizeAvg r.size_score
  | .license => r.license
  | .rampUp => r.ramp_up_time
  | .busFactor => r.bus_factor
  | .datasetQuality => r.dataset_quality
  | .codeQuality => r.code_quality
  | .availability => r.dataset_and_code_score
  | .performance => r.performance_claims
  | .reproducibility => r.reproducibility
  | .reviewedness => r.reviewedness
  | .treeScore => r.tree_score

/-- The invariant of section 8: every score field of a rating — the ten
scalar metric scores of the ModelRating record, tree_score included, the
net score and the four size-platform entries — lies in the closed unit
interval. -/
def ScoreFieldsInUnit (r : ModelRating) : Prop :=
  (0 ≤ r.net_score ∧ r.net_score ≤ 1)
  ∧ (0 ≤ r.ramp_up_time ∧ r.ramp_up_time ≤ 1)
  ∧ (0 ≤ r.bus_factor ∧ r.bus_factor ≤ 1)
  ∧ (0 ≤ r.performance_claims ∧ r.performance_claims ≤ 1)
  ∧ (0 ≤ r.license ∧ r.license ≤ 1)
  ∧ (0 ≤ r.dataset_and_code_score ∧ r.dataset_and_code_score ≤ 1)
  ∧ (0 ≤ r.dataset_quality ∧ r.dataset_quality ≤ 1)
  ∧ (0 ≤ r.code_quality ∧ r.code_quality ≤ 1)
  ∧ (0 ≤ r.reproducibility ∧ r.reproducibility ≤ 1)
  ∧ (0 ≤ r.reviewedness ∧ r.reviewedness ≤ 1)
  ∧ (0 ≤ r.tree_score ∧ r.tree_score ≤ 1)
  ∧ (0 ≤ r.size_score.raspberry_pi ∧ r.size_score.raspberry_pi ≤ 1)
  ∧ (0 ≤ r.size_score.jetson_nano ∧ r.size_score.jetson_nano ≤ 1)
  ∧ (0 ≤ r.size_score.desktop_pc ∧ r.size_score.desktop_pc ≤ 1)
  ∧ (0 ≤ r.size_score.aws_server ∧ r.size_score.aws_server ≤ 1)

theorem clamp01_nonneg (x : ℚ) : 0 ≤ clamp01 x := le_max_left 0 _

theorem clamp01_le_one (x : ℚ) : clamp01 x ≤ 1 :=
  max_le (by norm_num) (min_le_left 1 x)

theorem b2q_nonneg (b : Bool) : 0 ≤ b2q b := by cases b <;> simp [b2q]

theorem b2q_le_one (b : Bool) : b2q b ≤ 1 := by
  cases b <;> simp [b2q]

theorem countFrac_le_one (c l : ℕ) (h : c ≤ l) (hl : 0 < l) :
    (c : ℚ) / (l : ℚ) ≤ 1 := by
  rw [div_le_one (by exact_mod_cast hl)]
  exact_mod_cast h

theorem sizeAvg_bounds (s : SizeScore)
    (h1 : 0 ≤ s.raspberry_pi) (h2 : s.raspberry_pi ≤ 1)
    (h3 : 0 ≤ s.jetson_nano) (h4 : s.jetson_nano ≤ 1)
    (h5 : 0 ≤ s.desktop_pc) (h6 : s.desktop_pc ≤ 1)
    (h7 : 0 ≤ s.aws_server) (h8 : s.aws_server ≤ 1) :
    0 ≤ sizeAvg s ∧ sizeAvg s ≤ 1 := by
  unfold sizeAvg
  constructor
  · apply div_nonneg (by linarith) (by norm_num)
  · rw [div_le_one (by norm_num)]
    linarith

theorem sizeEval_avg_bounds (b : MetadataBundle) :
    0 ≤ sizeAvg (sizeEval b) ∧ sizeAvg (sizeEval b) ≤ 1 := by
  apply sizeAvg_bounds <;>
    simp only [sizeEval] <;>
    first
      | exact clamp01_nonneg _
      | exact clamp01_le_one _

theorem licenseEval_bounds (b : MetadataBundle) :
    0 ≤ licenseEval b ∧ licenseEval b ≤ 1 := by
  unfold licenseEval
  cases b.licenseStatus <;> norm_num

theorem rampUpEval_bounds (b : MetadataBundle) :
    0 ≤ rampUpEval b ∧ rampUpEval b ≤ 1 := by
  unfold rampUpEval
  split_ifs
  · norm_num
  · have h1 := b2q_nonneg b.hasUsageExamples
    have h2 := b2q_le_one b.hasUsageExamples
    have h3 := b2q_nonneg b.hasInstallSteps
    have h4 := b2q_le_one b.hasInstallSteps
    have h5 := b2q_nonneg b.hasDescribedInputsOutputs
    have h6 := b2q_le_one b.hasDescribedInputsOutputs
    constructor
    · apply div_nonneg (by linarith) (by norm_num)
    · rw [div_le_one (by norm_num)]
      linarith

theorem busFactorEval_bounds (b : MetadataBundle) :
    0 ≤ busFactorEval b ∧ busFactorEval b ≤ 1 := by
  unfold busFactorEval
  split_ifs
  · norm_num
  · exact ⟨clamp01_nonneg _, clamp01_le_one _⟩

theorem datasetQualityEval_bounds (b : MetadataBundle) :
    0 ≤ datasetQualityEval b ∧ datasetQualityEval b ≤ 1 := by
  unfold datasetQualityEval
  split_ifs
  · norm_num
  · have h1 := b2q_nonneg b.hasLicensingTerm
    have h2 := b2q_le_one b.hasLicensingTerm
    have h3 := b2q_nonneg b.hasSplitTerm
    have h4 := b2q_le_one b.hasSplitTerm
    have h5 := b2q_nonneg b.hasProvenanceTerm
    have h6 := b2q_le_one b.hasProvenanceTerm
    constructor
    · apply div_nonneg (by linarith) (by norm_num)
    · rw [div_le_one (by norm_num)]
      linarith

theorem codeQualityEval_bounds (b : MetadataBundle) :
    0 ≤ codeQualityEval b ∧ codeQualityEval b ≤ 1 := by
  unfold codeQualityEval
  split_ifs
  · norm_num
  · exact ⟨clamp01_nonneg _, clamp01_le_one _⟩

theorem availabilityEval_bounds (b : MetadataBundle) :
    0 ≤ availabilityEval b ∧ availabilityEval b ≤ 1 := by
  unfold availabilityEval
  have h1 := b2q_nonneg b.datasetPresent
  have h2 := b2q_le_one b.datasetPresent
  have h3 := b2q_nonneg b.codePresent
  have h4 := b2q_le_one b.codePresent
  constructor <;> linarith

theorem performanceEval_bounds (b : MetadataBundle) :
    0 ≤ performanceEval b ∧ performanceEval b ≤ 1 := by
  unfold performanceEval
  cases b.performanceService
  · norm_num
  · exact ⟨clamp01_nonneg _, clamp01_le_one _⟩

theorem boolFracEval_bounds (l : List Bool) :
    0 ≤ (if l.isEmpty then (0 : ℚ)
         else ((l.countP id : ℚ)) / (l.length : ℚ))
    ∧ (if l.isEmpty then (0 : ℚ)
       else ((l.countP id : ℚ)) / (l.length : ℚ)) ≤ 1 := by
  split_ifs with h
  · norm_num
  · have hne : l ≠ [] := by
      cases l
      · simp at h
      · simp
    have hlen : 0 < l.length := List.length_pos.mpr hne
    constructor
    · apply div_nonneg (by positivity) (by positivity)
    · exact countFrac_le_one _ _ (List.countP_le_length id) hlen

theorem reproducibilityEval_bounds (b : MetadataBundle) :
    0 ≤ reproducibilityEval b ∧ reproducibilityEval b ≤ 1 :=
  boolFracEval_bounds b.snippetResults

theorem reviewednessEval_bounds (b : MetadataBundle) :
    0 ≤ reviewednessEval b ∧ reviewednessEval b ≤ 1 :=
  boolFracEval_bounds b.reviewResults

theorem baseline_bounds (k : MetricKey) : 0 ≤ baseline k ∧ baseline k ≤ 1 := by
  cases k <;> norm_num [baseline]

theorem metricOutcome_score_bounds (store : LineageStore) (root : ℕ)
    (b : MetadataBundle) (t : MetricKey → Bool) (lat : MetricKey → ℕ)
    (k : MetricKey) (hk : k ≠ MetricKey.treeScore) :
    0 ≤ (metricOutcome store root b t lat k).score
    ∧ (metricOutcome store root b t lat k).score ≤ 1 := by
  unfold metricOutcome
  split_ifs
  · exact baseline_bounds k
  · cases k
    · exact sizeEval_avg_bounds b
    · exact licenseEval_bounds b
    · exact rampUpEval_bounds b
    · exact busFactorEval_bounds b
    · exact datasetQualityEval_bounds b
    · exact codeQualityEval_bounds b
    · exact availabilityEval_bounds b
    · exact performanceEval_bounds b
    · exact reproducibilityEval_bounds b
    · exact reviewednessEval_bounds b
    · exact absurd rfl hk

/-- C1: for every computed Rating, netScore equals the fixed weighted sum
over metrics 1-10 (with the size metric contributing one weight applied to
the average of its four platform scores), and the eleventh metric,
TreeScore, is excluded from that weighted sum, so netScore is independent
of the lineage store backing tree_score. -/
theorem netScore_is_fixed_weighted_sum_of_ten_metrics
    (store store2 : LineageStore) (root : ℕ) (nm cat : String)
    (b : MetadataBundle) (t : MetricKey → Bool) (lat : MetricKey → ℕ) :
    (rate store root nm cat b t lat).net_score
      = netWeight .size * sizeAvg (rate store root nm cat b t lat).size_score
      + netWeight .license * (rate store root nm cat b t lat).license
      + netWeight .rampUp * (rate store root nm cat b t lat).ramp_up_time
      + netWeight .busFactor * (rate store root nm cat b t lat).bus_factor
      + netWeight .datasetQuality
          * (rate store root nm cat b t lat).dataset_quality
      + netWeight .codeQuality * (rate store root nm cat b t lat).code_quality
      + netWeight .availability
          * (rate store root nm cat b t lat).dataset_and_code_score
      + netWeight .performance
          * (rate store root nm cat b t lat).performance_claims
      + netWeight .reproducibility
          * (rate store root nm cat b t lat).reproducibility
      + netWeight .reviewedness
          * (rate store root nm cat b t lat).reviewedness
    ∧ (rate store root nm cat b t lat).net_score
      = (rate store2 root nm cat b t lat).net_score := by
  constructor
  · simp only [rate, netScoreOfSlots, tenMetricKeys, List.map_cons,
      List.map_nil, List.sum_cons, List.sum_nil, metricOutcome, rateSizeScore,
      evalScore, apply_ite MetricResult.score, apply_ite sizeAvg]
    have hz : sizeAvg ⟨0, 0, 0, 0⟩ = baseline MetricKey.size := by
      norm_num [sizeAvg, baseline]
    rw [hz]
    ring
  · simp only [rate, netScoreOfSlots, tenMetricKeys, List.map_cons,
      List.map_nil, List.sum_cons, List.sum_nil, metricOutcome, evalScore,
      apply_ite MetricResult.score]

theorem mapped_sum_bounds (f : ℕ → ℚ) (l : List ℕ)
    (h : ∀ a, 0 ≤ f a ∧ f a ≤ 1) :
    0 ≤ (l.map f).sum ∧ (l.map f).sum ≤ (l.length : ℚ) := by
  induction l with
  | nil => simp
  | cons a l ih =>
    simp only [List.map_cons, List.sum_cons, List.length_cons]
    have ha := h a
    push_cast
    constructor <;> linarith [ih.1, ih.2]

theorem treeScoreEval_bounds (store : LineageStore) (root : ℕ)
    (h : ∀ a, 0 ≤ store.netScoreOf a ∧ store.netScoreOf a ≤ 1) :
    0 ≤ treeScoreEval store root ∧ treeScoreEval store root ≤ 1 := by
  simp only [treeScoreEval]
  split_ifs with hemp
  · norm_num
  · have hne : ancestorsOf store root ≠ [] := by
      intro hc
      rw [hc] at hemp
      simp at hemp
    have hlen : (0 : ℚ) < ((ancestorsOf store root).length : ℚ) := by
      exact_mod_cast List.length_pos.mpr hne
    have hsum := mapped_sum_bounds store.netScoreOf (ancestorsOf store root) h
    constructor
    · exact div_nonneg hsum.1 (le_of_lt hlen)
    · rw [div_le_one hlen]
      exact hsum.2

theorem metricOutcome_treeScore_bounds (store : LineageStore) (root : ℕ)
    (b : MetadataBundle) (t : MetricKey → Bool) (lat : MetricKey → ℕ)
    (h : ∀ a, 0 ≤ store.netScoreOf a ∧ store.netScoreOf a ≤ 1) :
    0 ≤ (metricOutcome store root b t lat MetricKey.treeScore).score
    ∧ (metricOutcome store root b t lat MetricKey.treeScore).score ≤ 1 := by
  unfold metricOutcome
  split_ifs
  · exact baseline_bounds _
  · simpa only [evalScore] using treeScoreEval_bounds store root h

/-- C2: for every computed Rating, every score field — each of the ten
metric scores, tree_score included, netScore, and each of the four entries
of size_score — lies in the closed interval from 0 to 1; the ancestor
scores tree_score averages are net scores of previously stored ratings,
themselves subject to this invariant, which the store hypothesis records. -/
theorem rating_scores_lie_in_unit_interval
    (store : LineageStore) (root : ℕ) (nm cat : String)
    (b : MetadataBundle) (t : MetricKey → Bool) (lat : MetricKey → ℕ)
    (hws : ∀ a, 0 ≤ store.netScoreOf a ∧ store.netScoreOf a ≤ 1) :
    ScoreFieldsInUnit (rate store root nm cat b t lat) := by
  have hsz := metricOutcome_score_bounds store root b t lat .size (by decide)
  have hli := metricOutcome_score_bounds store root b t lat .license (by decide)
  have hru := metricOutcome_score_bounds store root b t lat .rampUp (by decide)
  have hbf := metricOutcome_score_bounds store root b t lat .busFactor (by decide)
  have hdq := metricOutcome_score_bounds store root b t lat .datasetQuality (by decide)
  have hcq := metricOutcome_score_bounds store root b t lat .codeQuality (by decide)
  have hav := metricOutcome_score_bounds store root b t lat .availability (by decide)
  have hpf := metricOutcome_score_bounds store root b t lat .performance (by decide)
  have hrp := metricOutcome_score_bounds store root b t lat .reproducibility (by decide)
  have hrv := metricOutcome_score_bounds store root b t lat .reviewedness (by decide)
  have htr := metricOutcome_treeScore_bounds store root b t lat hws
  refine ⟨?_, ?_, ?_, ?_, ?_, ?_, ?_, ?_, ?_, ?_, ?_, ?_, ?_, ?_, ?_⟩
  · constructor
    · simp only [rate, netScoreOfSlots, tenMetricKeys, List.map_cons,
        List.map_nil, List.sum_cons, List.sum_nil, netWeight]
      linarith [hsz.1, hli.1, hru.1, hbf.1, hdq.1, hcq.1, hav.1, hpf.1,
        hrp.1, hrv.1]
    · simp only [rate, netScoreOfSlots, tenMetricKeys, List.map_cons,
        List.map_nil, List.sum_cons, List.sum_nil, netWeight]
      linarith [hsz.2, hli.2, hru.2, hbf.2, hdq.2, hcq.2, hav.2, hpf.2,
        hrp.2, hrv.2]
  · simpa only [rate] using hru
  · simpa only [rate] using hbf
  · simpa only [rate] using hpf
  · simpa only [rate] using hli
  · simpa only [rate] using hav
  · simpa only [rate] using hdq
  · simpa only [rate] using hcq
  · simpa only [rate] using hrp
  · simpa only [rate] using hrv
  · simpa only [rate] using htr
  · simp only [rate, rateSizeScore]
    split_ifs
    · norm_num
    · exact ⟨by simpa [sizeEval] using clamp01_nonneg _,
        by simpa [sizeEval] using clamp01_le_one _⟩
  · simp only [rate, rateSizeScore]
    split_ifs
    · norm_num
    · exact ⟨by simpa [sizeEval] using clamp01_nonneg _,
        by simpa [sizeEval] using clamp01_le_one _⟩
  · simp only [rate, rateSizeScore]
    split_ifs
    · norm_num
    · exact ⟨by simpa [sizeEval] using clamp01_nonneg _,
        by simpa [sizeEval] using clamp01_le_one _⟩
  · simp only [rate, rateSizeScore]
    split_ifs
    · norm_num
    · exact ⟨by simpa [sizeEval] using clamp01_nonneg _,
        by simpa [sizeEval] using clamp01_le_one _⟩

/-- Witness for C2 at a concrete input: the diamond store's stored net
scores lie in the unit interval, so the computed rating's score fields all
do. -/
theorem rating_scores_lie_in_unit_interval_witness :
    ScoreFieldsInUnit (rate diamondStore 1 "bert-base-uncased" "MODEL"
      emptyBundle (fun _ => false) (fun _ => 0)) :=
  rating_scores_lie_in_unit_interval diamondStore 1 "bert-base-uncased"
    "MODEL" emptyBundle (fun _ => false) (fun _ => 0)
    (by
      intro a
      simp only [diamondStore]
      split_ifs <;> norm_num)

/-- C4: the orchestrator's rate never fails outright: it is a total
function whose Rating fills all eleven metric slots from the per-metric
outcomes, and a timed-out evaluator contributes a synthesized result with
its configured baseline score and a Timeout error marker, while a
completed one contributes its own score and latency. -/
theorem rate_never_fails_and_synthesizes_timeouts
    (store : LineageStore) (root : ℕ) (nm cat : String)
    (b : MetadataBundle) (t : MetricKey → Bool) (lat : MetricKey → ℕ)
    (k : MetricKey) :
    ratingSlotScore (rate store root nm cat b t lat) k
        = (metricOutcome store root b t lat k).score
    ∧ (t k = true → metricOutcome store root b t lat k
        = { score := baseline k, latencyMs := metricTimeoutMs k
          , error := some ErrorKind.Timeout })
    ∧ (t k = false → metricOutcome store root b t lat k
        = { score := evalScore store root b k, latencyMs := lat k
          , error := none }) := by
  refine ⟨?_, ?_, ?_⟩
  · cases k <;>
      simp only [ratingSlotScore, rate, metricOutcome, rateSizeScore,
        apply_ite sizeAvg, apply_ite MetricResult.score, evalScore] <;>
      split_ifs <;>
      norm_num [sizeAvg, baseline]
  · intro h
    simp [metricOutcome, h]
  · intro h
    simp [metricOutcome, h]

/-- Witness for C4 at a concrete input: with every evaluator timed out the
licence slot is synthesized as its baseline with a Timeout marker. -/
theorem rate_never_fails_and_synthesizes_timeouts_witness :
    metricOutcome diamondStore 1 emptyBundle (fun _ => true) (fun _ => 0)
      MetricKey.license
      = { score := 1/2, latencyMs := 5000
        , error := some ErrorKind.Timeout } := by
  have h := (rate_never_fails_and_synthesizes_timeouts diamondStore 1
    "bert-base-uncased" "MODEL" emptyBundle (fun _ => true) (fun _ => 0)
    MetricKey.license).2.1 rfl
  simpa [baseline, metricTimeoutMs] using h

theorem length_filter_mono (l : List ℕ) (p q : ℕ → Bool)
    (h : ∀ x ∈ l, p x = true → q x = true) :
    (l.filter p).length ≤ (l.filter q).length := by
  induction l with
  | nil => simp
  | cons a l ih =>
    have ihl := ih (fun x hx => h x (List.mem_cons_of_mem a hx))
    by_cases hp : p a = true
    · have hq := h a (List.mem_cons_self a l) hp
      simp only [List.filter_cons, hp, hq, if_true, List.length_cons]
      omega
    · simp only [List.filter_cons, Bool.not_eq_true] at hp ⊢
      rw [hp]
      cases hq : q a <;> simp <;> omega

theorem length_filter_notmem_concat_lt (l v : List ℕ) (n : ℕ)
    (hn : n ∈ l) (hnv : n ∉ v) :
    (l.filter (fun x => decide (x ∉ v ++ [n]))).length
      < (l.filter (fun x => decide (x ∉ v))).length := by
  induction l with
  | nil => simp at hn
  | cons a l ih =>
    by_cases han : a = n
    · subst han
      have hp1 : (decide (a ∉ v ++ [a])) = false := by simp
      have hp2 : (decide (a ∉ v)) = true := by simpa using hnv
      simp only [List.filter_cons, hp1, hp2, Bool.false_eq_true, if_true,
        if_false, List.length_cons]
      have : (l.filter (fun x => decide (x ∉ v ++ [a]))).length
          ≤ (l.filter (fun x => decide (x ∉ v))).length := by
        apply length_filter_mono
        intro x _ hx
        simp only [decide_eq_true_eq] at hx ⊢
        intro hxv
        exact hx (List.mem_append_left _ hxv)
      omega
    · have hmem : n ∈ l := by
        rcases List.mem_cons.mp hn with h | h
        · exact absurd h.symm han
        · exact h
      have heq : (decide (a ∉ v ++ [n])) = (decide (a ∉ v)) := by
        by_cases hav : a ∈ v
        · simp [hav, List.mem_append_left]
        · simp [hav, han, List.mem_append]
      cases hcase : (decide (a ∉ v)) with
      | true =>
        simp only [List.filter_cons, heq, hcase, if_true, List.length_cons]
        exact Nat.succ_lt_succ (ih hmem)
      | false =>
        simp only [List.filter_cons, heq, hcase, Bool.false_eq_true, if_false]
        exact ih hmem

theorem unvisitedCount_concat_lt (edges : List (ℕ × ℕ)) (root : ℕ)
    (v : List ℕ) (n : ℕ) (hn : n ∈ nodesOf edges root) (hnv : n ∉ v) :
    unvisitedCount edges root (v ++ [n]) < unvisitedCount edges root v :=
  length_filter_notmem_concat_lt _ v n hn hnv

theorem parentsOf_length_le (edges : List (ℕ × ℕ)) (n : ℕ) :
    (parentsOf edges n).length ≤ edges.length := by
  unfold parentsOf
  rw [List.length_map]
  exact List.length_filter_le _ _

theorem parentsOf_subset_nodes (edges : List (ℕ × ℕ)) (root n x : ℕ)
    (hx : x ∈ parentsOf edges n) : x ∈ nodesOf edges root := by
  unfold parentsOf at hx
  rcases List.mem_map.mp hx with ⟨e, he, hex⟩
  have := List.mem_filter.mp he
  unfold nodesOf
  right
  apply List.mem_append_left
  exact hex ▸ List.mem_map_of_mem Prod.fst this.1

theorem bfsAux_nil_queue (edges : List (ℕ × ℕ)) (fuel : ℕ) (v : List ℕ) :
    bfsAux edges fuel [] v = v := by
  cases fuel <;> rfl

theorem phiMeasure_cons (edges : List (ℕ × ℕ)) (root n : ℕ)
    (rest v : List ℕ) :
    phiMeasure edges root (n :: rest) v = phiMeasure edges root rest v + 1 := by
  simp only [phiMeasure, List.length_cons]
  ring

theorem bfsAux_succ_eq (edges : List (ℕ × ℕ)) (root : ℕ) :
    ∀ fuel queue visited,
      (∀ x ∈ queue, x ∈ nodesOf edges root) →
      phiMeasure edges root queue visited ≤ fuel →
      bfsAux edges (fuel + 1) queue visited = bfsAux edges fuel queue visited := by
  intro fuel
  induction fuel with
  | zero =>
    intro queue visited _ hphi
    have hlen : queue.length ≤ phiMeasure edges root queue visited := by
      unfold phiMeasure
      exact Nat.le_add_right _ _
    have hq : queue = [] := List.length_eq_zero.mp (by omega)
    rw [hq, bfsAux_nil_queue, bfsAux_nil_queue]
  | succ fuel ih =>
    intro queue visited hq hphi
    cases queue with
    | nil => rw [bfsAux_nil_queue, bfsAux_nil_queue]
    | cons n rest =>
      by_cases hmem : n ∈ visited
      · have e1 : bfsAux edges (fuel + 1 + 1) (n :: rest) visited
            = bfsAux edges (fuel + 1) rest visited := by
          simp [bfsAux, hmem]
        have e2 : bfsAux edges (fuel + 1) (n :: rest) visited
            = bfsAux edges fuel rest visited := by
          simp [bfsAux, hmem]
        rw [e1, e2]
        apply ih rest visited (fun x hx => hq x (List.mem_cons_of_mem n hx))
        have hc := phiMeasure_cons edges root n rest visited
        omega
      · have e1 : bfsAux edges (fuel + 1 + 1) (n :: rest) visited
            = bfsAux edges (fuel + 1)
                (rest ++ (parentsOf edges n).filter
                  (fun p => decide (p ∉ visited ++ [n])))
                (visited ++ [n]) := by
          simp [bfsAux, hmem]
        have e2 : bfsAux edges (fuel + 1) (n :: rest) visited
            = bfsAux edges fuel
                (rest ++ (parentsOf edges n).filter
                  (fun p => decide (p ∉ visited ++ [n])))
                (visited ++ [n]) := by
          simp [bfsAux, hmem]
        rw [e1, e2]
        apply ih
        · intro x hx
          rcases List.mem_append.mp hx with h | h
          · exact hq x (List.mem_cons_of_mem n h)
          · exact parentsOf_subset_nodes edges root n x
              (List.mem_of_mem_filter h)
        · have hnU : n ∈ nodesOf edges root := hq n (List.mem_cons_self n rest)
          have hu := unvisitedCount_concat_lt edges root visited n hnU hmem
          have hpar : ((parentsOf edges n).filter
              (fun p => decide (p ∉ visited ++ [n]))).length ≤ edges.length :=
            le_trans (List.length_filter_le _ _) (parentsOf_length_le edges n)
          have hmul : unvisitedCount edges root (visited ++ [n])
                  * (edges.length + 1) + (edges.length + 1)
              ≤ unvisitedCount edges root visited * (edges.length + 1) := by
            calc unvisitedCount edges root (visited ++ [n])
                    * (edges.length + 1) + (edges.length + 1)
                = (unvisitedCount edges root (visited ++ [n]) + 1)
                    * (edges.length + 1) := by ring
              _ ≤ unvisitedCount edges root visited * (edges.length + 1) :=
                  Nat.mul_le_mul_right _ hu
          unfold phiMeasure at hphi ⊢
          rw [List.length_append]
          rw [List.length_cons] at hphi
          linarith

theorem bfsAux_fuel_ge (edges : List (ℕ × ℕ)) (root : ℕ) (fuel : ℕ)
    (h : fuelBound edges root ≤ fuel) :
    bfsAux edges fuel [root] [] = lineageVisited edges root := by
  unfold lineageVisited
  induction fuel, h using Nat.le_induction with
  | base => rfl
  | succ fuel hle ih =>
    rw [← ih]
    apply bfsAux_succ_eq edges root fuel [root] []
    · intro x hx
      have : x = root := by simpa using hx
      rw [this]
      exact List.mem_cons_self _ _
    · exact hle

theorem bfsAux_nodup (edges : List (ℕ × ℕ)) :
    ∀ fuel queue visited, visited.Nodup →
      (bfsAux edges fuel queue visited).Nodup := by
  intro fuel
  induction fuel with
  | zero => intro queue visited h; exact h
  | succ fuel ih =>
    intro queue visited h
    cases queue with
    | nil => exact h
    | cons n rest =>
      by_cases hmem : n ∈ visited
      · rw [show bfsAux edges (fuel + 1) (n :: rest) visited
            = bfsAux edges fuel rest visited from by simp [bfsAux, hmem]]
        exact ih rest visited h
      · rw [show bfsAux edges (fuel + 1) (n :: rest) visited
            = bfsAux edges fuel
                (rest ++ (parentsOf edges n).filter
                  (fun p => decide (p ∉ visited ++ [n])))
                (visited ++ [n]) from by simp [bfsAux, hmem]]
        apply ih
        simp [List.nodup_append, h, hmem]

theorem bfsAux_subset (edges : List (ℕ × ℕ)) (root : ℕ) :
    ∀ fuel queue visited,
      (∀ x ∈ queue, x ∈ nodesOf edges root) →
      (∀ x ∈ visited, x ∈ nodesOf edges root) →
      ∀ x ∈ bfsAux edges fuel queue visited, x ∈ nodesOf edges root := by
  intro fuel
  induction fuel with
  | zero => intro queue visited _ hv x hx; exact hv x hx
  | succ fuel ih =>
    intro queue visited hq hv
    cases queue with
    | nil => exact hv
    | cons n rest =>
      by_cases hmem : n ∈ visited
      · rw [show bfsAux edges (fuel + 1) (n :: rest) visited
            = bfsAux edges fuel rest visited from by simp [bfsAux, hmem]]
        exact ih rest visited (fun x hx => hq x (List.mem_cons_of_mem n hx)) hv
      · rw [show bfsAux edges (fuel + 1) (n :: rest) visited
            = bfsAux edges fuel
                (rest ++ (parentsOf edges n).filter
                  (fun p => decide (p ∉ visited ++ [n])))
                (visited ++ [n]) from by simp [bfsAux, hmem]]
        apply ih
        · intro x hx
          rcases List.mem_append.mp hx with h | h
          · exact hq x (List.mem_cons_of_mem n h)
          · exact parentsOf_subset_nodes edges root n x
              (List.mem_of_mem_filter h)
        · intro x hx
          rcases List.mem_append.mp hx with h | h
          · exact hv x h
          · have : x = n := by simpa using h
            rw [this]
            exact hq n (List.mem_cons_self n rest)

theorem lineageVisited_nodup (edges : List (ℕ × ℕ)) (root : ℕ) :
    (lineageVisited edges root).Nodup :=
  bfsAux_nodup edges _ [root] [] List.nodup_nil

theorem lineageVisited_subset (edges : List (ℕ × ℕ)) (root : ℕ) :
    ∀ x ∈ lineageVisited edges root, x ∈ nodesOf edges root := by
  apply bfsAux_subset edges root
  · intro x hx
    have : x = root := by simpa using hx
    rw [this]
    exact List.mem_cons_self _ _
  · intro x hx
    simp at hx

theorem parentsOf_eq_nil (edges : List (ℕ × ℕ)) (root : ℕ)
    (h : ∀ e ∈ edges, e.2 ≠ root) : parentsOf edges root = [] := by
  unfold parentsOf
  have : edges.filter (fun e => e.2 == root) = [] := by
    rw [List.filter_eq_nil_iff]
    intro e he
    simpa using h e he
  rw [this]
  rfl

theorem lineageVisited_of_no_parents (edges : List (ℕ × ℕ)) (root : ℕ)
    (h : parentsOf edges root = []) : lineageVisited edges root = [root] := by
  unfold lineageVisited fuelBound
  obtain ⟨m, hm⟩ : ∃ m, phiMeasure edges root [root] [] = m + 1 := by
    refine ⟨unvisitedCount edges root [] * (edges.length + 1), ?_⟩
    simp only [phiMeasure, List.length_singleton]
    ring
  rw [hm]
  simp [bfsAux, h, bfsAux_nil_queue]

/-- C5: for every edge set, including a directed cycle among three
artifacts, lineage traversal from any root terminates — any fuel at or
beyond the provable bound yields the same finite visited list — that list
never repeats a node (no re-expansion past the visited-set test), stays
within the store's node set, and the concrete three-cycle is traversed to
exactly its three nodes. -/
theorem lineage_traversal_terminates_cycle_safe :
    (∀ edges root fuel, fuelBound edges root ≤ fuel →
      bfsAux edges fuel [root] [] = lineageVisited edges root)
    ∧ (∀ edges root, (lineageVisited edges root).Nodup)
    ∧ (∀ edges root, ∀ x ∈ lineageVisited edges root, x ∈ nodesOf edges root)
    ∧ lineageVisited cycleEdges 1 = [1, 3, 2] :=
  ⟨bfsAux_fuel_ge, lineageVisited_nodup, lineageVisited_subset, by decide⟩

/-- Witness for C5 at a concrete input: generous fuel traverses the
three-cycle to the same stabilized result. -/
theorem lineage_traversal_terminates_cycle_safe_witness :
    bfsAux cycleEdges 50 [1] [] = lineageVisited cycleEdges 1 :=
  lineage_traversal_terminates_cycle_safe.1 cycleEdges 1 50 (by decide)

/-- C3: TreeScore equals the mean netScore over the unique ancestors of
the rated artifact — the ancestor list never repeats an artifact however
many paths reach it, the diamond store with ancestor netScores 0.4 and 0.8
scores 0.6 — and an artifact with zero inbound ancestor edges has
TreeScore exactly 0. -/
theorem treeScore_is_mean_over_unique_ancestors :
    (∀ store root, (∀ e ∈ store.edges, e.2 ≠ root) →
      treeScoreEval store root = 0)
    ∧ (∀ store root, (ancestorsOf store root).Nodup)
    ∧ treeScoreEval diamondStore 1 = 3/5 := by
  refine ⟨?_, ?_, ?_⟩
  · intro store root h
    have h2 := lineageVisited_of_no_parents store.edges root
      (parentsOf_eq_nil store.edges root h)
    simp [treeScoreEval, ancestorsOf, h2]
  · intro store root
    exact (lineageVisited_nodup store.edges root).filter _
  · have hanc : ancestorsOf diamondStore 1 = [10, 20] := by decide
    simp only [treeScoreEval, hanc]
    norm_num [diamondStore]

/-- Witness for C3 at a concrete input: an artifact with no inbound edges
has TreeScore exactly 0. -/
theorem treeScore_is_mean_over_unique_ancestors_witness :
    treeScoreEval { edges := [(1, 2)], netScoreOf := fun _ => 1
                  , costOf := fun _ => 1 } 3 = 0 :=
  treeScore_is_mean_over_unique_ancestors.1
    { edges := [(1, 2)], netScoreOf := fun _ => 1, costOf := fun _ => 1 } 3
    (by decide)

/-- C9: computeCost with includeDependencies true returns a total equal to
the artifact's standalone cost when it has no lineage edges, and otherwise
equal to its own standalone cost plus the sum of ancestor standalone costs
over the duplicate-free ancestor list, each unique ancestor counted once
even when reachable along several paths, as the diamond store shows. -/
theorem computeCost_includes_unique_ancestors_once :
    (∀ store root, (∀ e ∈ store.edges, e.1 ≠ root ∧ e.2 ≠ root) →
      computeCost store root true
        = { standalone_cost := some (store.costOf root)
          , total_cost := store.costOf root })
    ∧ (∀ store root, (computeCost store root true).total_cost
        = store.costOf root + ((ancestorsOf store root).map store.costOf).sum
        ∧ (ancestorsOf store root).Nodup)
    ∧ computeCost diamondStore 1 true
        = { standalone_cost := some 3, total_cost := 15 } := by
  refine ⟨?_, ?_, ?_⟩
  · intro store root h
    have h2 := lineageVisited_of_no_parents store.edges root
      (parentsOf_eq_nil store.edges root (fun e he => (h e he).2))
    simp [computeCost, ancestorsOf, h2]
  · intro store root
    exact ⟨by simp [computeCost],
      (lineageVisited_nodup store.edges root).filter _⟩
  · have hanc : ancestorsOf diamondStore 1 = [10, 20] := by decide
    simp only [computeCost, hanc, if_true]
    norm_num [diamondStore]

/-- Witness for C9 at a concrete input: an artifact untouched by any edge
has total cost equal to its standalone cost. -/
theorem computeCost_includes_unique_ancestors_once_witness :
    computeCost { edges := [(1, 2)], netScoreOf := fun _ => 1
                , costOf := fun _ => 1 } 3 true
      = { standalone_cost := some 1, total_cost := 1 } :=
  computeCost_includes_unique_ancestors_once.1
    { edges := [(1, 2)], netScoreOf := fun _ => 1, costOf := fun _ => 1 } 3
    (by decide)

/-- C6: every syntactically invalid pattern supplied to searchByRegex
fails with InvalidPattern carrying the pattern parser's specific
complaint — never any other failure — and the concrete pattern
"[invalid(regex" fails with the parser's unterminated-character-set
complaint for every database. -/
theorem searchByRegex_invalid_pattern_fails_gracefully :
    (∀ pattern db e, searchByRegex pattern db = Except.error e →
      e.1 = ErrorKind.InvalidPattern
      ∧ ∃ msg, parseRegex pattern = Except.error msg
          ∧ e.2 = "Invalid regex pattern: " ++ msg)
    ∧ (∀ db : List StoredArtifact, searchByRegex "[invalid(regex" db
        = Except.error (ErrorKind.InvalidPattern,
            "Invalid regex pattern: unterminated character set at position 0")) := by
  constructor
  · intro pattern db e h
    cases hp : parseRegex pattern with
    | error msg =>
      simp only [searchByRegex, hp] at h
      cases h
      exact ⟨rfl, msg, rfl, rfl⟩
    | ok r =>
      simp only [searchByRegex, hp] at h
      exact Except.noConfusion h
  · intro db
    rfl

/-- Witness for C6 at a concrete input: the invalid pattern's failure is
InvalidPattern and surfaces the parser's complaint. -/
theorem searchByRegex_invalid_pattern_fails_gracefully_witness :
    (ErrorKind.InvalidPattern,
        "Invalid regex pattern: unterminated character set at position 0").1
      = ErrorKind.InvalidPattern
    ∧ ∃ msg, parseRegex "[invalid(regex" = Except.error msg
        ∧ (ErrorKind.InvalidPattern,
            "Invalid regex pattern: unterminated character set at position 0").2
          = "Invalid regex pattern: " ++ msg :=
  searchByRegex_invalid_pattern_fails_gracefully.1 "[invalid(regex" [] _ rfl

/-- C7: for every valid pattern, searchByRegex keeps exactly the records
whose lowered name or lowered README the pattern matches somewhere —
case-insensitive matching over both fields — and the pattern ".*bert.*"
matches bert-base-uncased, distilbert and ALBERT but not whisper-small. -/
theorem searchByRegex_case_insensitive_name_and_readme :
    (∀ pattern r db, parseRegex pattern = Except.ok r →
      searchByRegex pattern db
        = Except.ok ((db.filter (fun a =>
            searchMatch r (lowerChars a.meta.name)
              || searchMatch r (lowerChars a.readme))).map (fun a => a.meta)))
    ∧ searchByRegex ".*bert.*" bertDb
        = Except.ok
          [ { name := "bert-base-uncased", id := "12345"
            , type := ArtifactType.model }
          , { name := "distilbert", id := "23456"
            , type := ArtifactType.model }
          , { name := "ALBERT", id := "45678"
            , type := ArtifactType.model } ] := by
  constructor
  · intro pattern r db h
    simp [searchByRegex, h]
  · rfl

/-- Witness for C7 at a concrete input: the parsed single-letter pattern
filters an empty database to the empty result. -/
theorem searchByRegex_case_insensitive_name_and_readme_witness :
    searchByRegex "x" []
      = Except.ok ((([] : List StoredArtifact).filter (fun a =>
          searchMatch (RegexAst.cat (RegexAst.lit 'x') RegexAst.epsilon)
            (lowerChars a.meta.name)
            || searchMatch (RegexAst.cat (RegexAst.lit 'x') RegexAst.epsilon)
              (lowerChars a.readme))).map (fun a => a.meta)) :=
  searchByRegex_case_insensitive_name_and_readme.1 "x"
    (RegexAst.cat (RegexAst.lit 'x') RegexAst.epsilon) [] rfl

/-- Counterexample to C8 as stated: with one stored whisper-small record,
the byName operation for "bert" matches nothing; the repository's pipeline
turns that empty result into a 404 response whose body carries the "error"
key "No such artifact", and the client — whose request error branch reads
only a "message" key — raises the ApiError "HTTP 404: Not Found".  The
empty result is surfaced as an error, not as a defined non-error outcome. -/
theorem searchByName_empty_result_is_error_counterexample :
    searchByName "bert"
        [ { meta :=
              { name := "whisper-small", id := "34567"
                , type := ArtifactType.model }
          , readme := "" } ] = []
    ∧ getByNameHandler "bert"
        [ { meta :=
              { name := "whisper-small", id := "34567"
                , type := ArtifactType.model }
          , readme := "" } ]
      = Except.error (404, { error := some "No such artifact"
                           , message := none })
    ∧ clientGetArtifactsByName "bert"
        [ { meta :=
              { name := "whisper-small", id := "34567"
                , type := ArtifactType.model }
          , readme := "" } ]
      = Except.error { message := "HTTP 404: Not Found", status := 404 } :=
  ⟨rfl, rfl, rfl⟩

/-- C8 amended: searchByName performs an exact, case-preserving match and
returns every stored record sharing the queried name (names are not
unique); when no record matches, the backend answers with the defined 404
response whose body carries the "error" key "No such artifact", and the
client surfaces it as an ApiError with its fallback message
"HTTP 404: Not Found" — an error rather than an empty list. -/
theorem searchByName_exact_match_with_404_on_empty :
    (∀ name db m, m ∈ searchByName name db
      ↔ ∃ a, a ∈ db ∧ a.meta = m ∧ m.name = name)
    ∧ (∀ name db, searchByName name db ≠ [] →
        clientGetArtifactsByName name db
          = Except.ok (searchByName name db))
    ∧ (∀ name db, searchByName name db = [] →
        getByNameHandler name db
            = Except.error (404, { error := some "No such artifact"
                                 , message := none })
          ∧ clientGetArtifactsByName name db
            = Except.error { message := "HTTP 404: Not Found"
                           , status := 404 })
    ∧ searchByName "bert" twoBertDb
        = [ { name := "bert", id := "1", type := ArtifactType.model }
          , { name := "bert", id := "2", type := ArtifactType.dataset } ]
    ∧ searchByName "Bert" twoBertDb = [] := by
  refine ⟨?_, ?_, ?_, rfl, rfl⟩
  · intro name db m
    constructor
    · intro hm
      simp only [searchByName, List.mem_map, List.mem_filter,
        beq_iff_eq] at hm
      rcases hm with ⟨a, ⟨ha, hname⟩, hmeta⟩
      exact ⟨a, ha, hmeta, by rw [← hmeta]; exact hname⟩
    · rintro ⟨a, ha, hmeta, hname⟩
      simp only [searchByName, List.mem_map, List.mem_filter, beq_iff_eq]
      exact ⟨a, ⟨ha, by rw [hmeta, hname]⟩, hmeta⟩
  · intro name db h
    have hne : (searchByName name db).isEmpty = false := by
      cases hcase : searchByName name db
      · exact absurd hcase h
      · rfl
    simp [clientGetArtifactsByName, getByNameHandler, hne]
  · intro name db h
    refine ⟨?_, ?_⟩
    · simp [getByNameHandler, h]
    · simp only [clientGetArtifactsByName, getByNameHandler, h,
        List.isEmpty_nil, if_true]
      rfl

/-- Witness for C8 at a concrete input: both same-named records are
returned when the name matches. -/
theorem searchByName_exact_match_with_404_on_empty_witness :
    clientGetArtifactsByName "bert" twoBertDb
      = Except.ok (searchByName "bert" twoBertDb) :=
  searchByName_exact_match_with_404_on_empty.2.1 "bert" twoBertDb (by decide)

/-- Counterexample to C10 as stated: a successful authenticate whose
returned token is the empty string leaves a token set — getToken returns
it and it is not null — yet the subsequent request carries no
X-Authorization header, because the client tests JavaScript truthiness
rather than nullness. -/
theorem auth_header_empty_token_counterexample :
    getToken (Registry.authenticate { token := none } "").1 = some ""
    ∧ getToken (Registry.authenticate { token := none } "").1 ≠ none
    ∧ requestHeaders (Registry.authenticate { token := none } "").1
        = [("Content-Type", "application/json")] :=
  ⟨rfl, by simp [Registry.authenticate, setToken, getToken], rfl⟩

/-- C10 amended: the X-Authorization header is attached to a request
exactly when a non-empty token is set: after authenticate returns a
non-empty token, getToken returns it and every request carries it; after
logout, getToken is null and no request carries the header. -/
theorem auth_header_iff_nonempty_token :
    (∀ st tok, tok ≠ "" →
      requestHeaders (Registry.authenticate st tok).1
          = [("Content-Type", "application/json"), ("X-Authorization", tok)]
        ∧ getToken (Registry.authenticate st tok).1 = some tok
        ∧ (Registry.authenticate st tok).2 = tok)
    ∧ (∀ st, getToken (logout st) = none
        ∧ requestHeaders (logout st) = [("Content-Type", "application/json")])
    ∧ (∀ st, (∃ v, ("X-Authorization", v) ∈ requestHeaders st)
        ↔ ∃ tk, getToken st = some tk ∧ tk ≠ "") := by
  refine ⟨?_, ?_, ?_⟩
  · intro st tok h
    exact ⟨by simp [Registry.authenticate, setToken, requestHeaders, h],
      rfl, rfl⟩
  · intro st
    exact ⟨rfl, rfl⟩
  · intro st
    cases hst : st.token with
    | none =>
      simp [requestHeaders, getToken, hst]
    | some tk =>
      by_cases ht : tk = ""
      · subst ht
        simp [requestHeaders, getToken, hst]
      · simp [requestHeaders, getToken, hst, ht]

/-- Witness for C10 at a concrete input: a non-empty bearer token is
stored, returned and attached to requests. -/
theorem auth_header_iff_nonempty_token_witness :
    requestHeaders (Registry.authenticate { token := none } "bearer tok123").1
        = [ ("Content-Type", "application/json")
          , ("X-Authorization", "bearer tok123") ]
      ∧ getToken (Registry.authenticate { token := none } "bearer tok123").1
        = some "bearer tok123"
      ∧ (Registry.authenticate { token := none } "bearer tok123").2
        = "bearer tok123" :=
  auth_header_iff_nonempty_token.1 { token := none } "bearer tok123"
    (by decide)

end Registry
